import Mathlib

/-!
Verification of the voice-assistant repository: a shallow embedding of the
registry normalization (`voice_route.py` / `ha_registry_update.py`), the LLM
result validator (`voice_assistant.py`), the STT escalation decision
(`server.py`), the wake-word arming loop (`hey_george_listener.py`), the LLM
response content extraction (`voice_route.py`), and the registry snapshot
loader (`voice_route.py`), together with theorems settling the spec claims.

Strings are modelled as Lean `String`/`List Char`; Python floats are modelled
as rationals; Python dicts appearing in the code are modelled either as
association lists (JSON objects with known key sets) or as finitely built
lookup functions (the dict comprehension in `_validate_llm_result`, whose
later insertions overwrite earlier ones).
-/

namespace VoiceAssistant

/-! ### Normalization: `norm` from `voice_route.py` lines 15-20.

`norm` lower-cases, strips, replaces each run matching `[_\-]+` with a single
space, replaces each run matching `[^a-z0-9 ]+` with a single space, replaces
each run matching `\s+` with a single space, and strips again.  `re.sub` with
a `+`-quantified character class replaces every maximal run of class members
with the replacement string, which `subRunsAux` implements directly; Python
whitespace is modelled by its ASCII members. -/

/-- ASCII whitespace, the characters matched by `\s` and stripped by
`str.strip()` (space, tab, newline, carriage return, vertical tab, form
feed). -/
def isWsChar (c : Char) : Bool :=
  c = ' ' || c = '\t' || c = '\n' || c = '\r' || c = '\x0b' || c = '\x0c'

/-- The character class `[_\-]` of the first `re.sub` in `norm`. -/
def isUnderscoreDash (c : Char) : Bool :=
  c = '_' || c = '-'

/-- The character class `[a-z0-9 ]`; the second `re.sub` in `norm` replaces
runs of its complement. -/
def isKeepChar (c : Char) : Bool :=
  ('a' ≤ c && c ≤ 'z') || ('0' ≤ c && c ≤ '9') || c = ' '

/-- `re.sub(class+, " ", s)`: every maximal run of characters satisfying `p`
becomes one space.  The boolean argument records whether the previous
character was part of a run (in which case the space was already emitted). -/
def subRunsAux (p : Char → Bool) : Bool → List Char → List Char
  | _, [] => []
  | inRun, c :: cs =>
    if p c then
      if inRun then subRunsAux p true cs
      else ' ' :: subRunsAux p true cs
    else c :: subRunsAux p false cs

/-- `re.sub` of a `+`-quantified character class by a single space. -/
def subRuns (p : Char → Bool) (l : List Char) : List Char :=
  subRunsAux p false l

/-- Remove trailing whitespace (the right half of `str.strip()`). -/
def dropTrailWs : List Char → List Char
  | [] => []
  | c :: cs =>
    let r := dropTrailWs cs
    if r.isEmpty && isWsChar c then [] else c :: r

/-- `str.strip()`: drop leading and trailing whitespace. -/
def stripList (l : List Char) : List Char :=
  dropTrailWs (l.dropWhile isWsChar)

/-- Body of `norm` from `voice_route.py` over character lists:
`s.lower().strip()`, then the three `re.sub` passes (underscore/dash runs,
non-`[a-z0-9 ]` runs, whitespace runs, each to one space), then `strip()`. -/
def normList (l : List Char) : List Char :=
  stripList
    (subRuns isWsChar
      (subRuns (fun c => !(isKeepChar c))
        (subRuns isUnderscoreDash
          (stripList (l.map Char.toLower)))))

/-- `norm` from `voice_route.py` (lines 15-20). -/
def norm (s : String) : String :=
  String.mk (normList s.data)

/-- `norm` from `ha_registry_update.py` (lines 25-31); the source text of the
function body is identical to the copy in `voice_route.py`. -/
def normRegistryUpdate (s : String) : String :=
  String.mk (normList s.data)

/-! ### LLM decision validation: `voice_assistant.py`.

Python values reaching `_clean_data` are modelled by `PyVal` (integers,
strings, `None`); `int(x)` coercion is `pyInt` (`int` of a string parses an
optional sign and a digit string, ignoring surrounding whitespace; `int(None)`
and `int` of a non-numeric string raise, modelled by `none`).  Python dicts
with data keys are association lists with unique keys, looked up by
`List.lookup` (first match).  Each `raise RuntimeError(...)` site is one
`ValidationError` constructor carrying the interpolated value. -/

/-- A Python value in an LLM decision's attribute map. -/
inductive PyVal where
  | int (n : Int)
  | str (s : String)
  | pynone
deriving DecidableEq

/-- A nonempty all-digit character list parsed as a natural number. -/
def parseDigits : List Char → Option Nat
  | [] => none
  | cs =>
    if cs.all (fun c => c.isDigit) then
      some (cs.foldl (fun acc c => acc * 10 + (c.toNat - 48)) 0)
    else
      none

/-- Python `int(s)` on a string: surrounding whitespace is ignored, then an
optional sign followed by digits; anything else raises `ValueError`. -/
def pyIntOfString (s : String) : Option Int :=
  match stripList s.data with
  | '-' :: rest => (parseDigits rest).map (fun n => -(n : Int))
  | '+' :: rest => (parseDigits rest).map (fun n => (n : Int))
  | cs => (parseDigits cs).map (fun n => (n : Int))

/-- Python `int(x)`: identity on integers, parsing on strings, and a
`TypeError` (modelled as `none`) on `None`. -/
def pyInt : PyVal → Option Int
  | .int n => some n
  | .str s => pyIntOfString s
  | .pynone => none

/-- A Python dict used as an attribute map, with unique keys. -/
abbrev PyDict := List (String × PyVal)

/-- One constructor per `raise RuntimeError(...)` site in
`voice_assistant.py`, carrying the value interpolated into the message. -/
inductive ValidationError where
  | invalidService (service : Option String)
  | roomNotFound (room_name : String)
  | noLightsForRoom (room_name : String)
  | missingFriendlyName
  | entityNotFound (entity_friendly_name : String)
  | invalidAttribute (msg : String)
deriving DecidableEq

/-- `_clean_data` (`voice_assistant.py` lines 22-38): keep only
`brightness_pct` (coerced to `int`, clamped by `max(1, min(100, .))`) and
`color_temp_kelvin` (coerced to `int`, clamped by `max(2300, min(4000, .))`);
raise on a coercion failure; drop every other key. -/
def clean_data (data : PyDict) : Except ValidationError PyDict :=
  let cleanedB : Except ValidationError PyDict :=
    match data.lookup "brightness_pct" with
    | none => .ok []
    | some v =>
      match pyInt v with
      | none => .error (.invalidAttribute "brightness_pct must be an integer")
      | some n => .ok [("brightness_pct", PyVal.int (max 1 (min 100 n)))]
  match cleanedB with
  | .error e => .error e
  | .ok cb =>
    match data.lookup "color_temp_kelvin" with
    | none => .ok cb
    | some v =>
      match pyInt v with
      | none => .error (.invalidAttribute "color_temp_kelvin must be an integer")
      | some n => .ok (cb ++ [("color_temp_kelvin", PyVal.int (max 2300 (min 4000 n)))])

/-- An entity record of the registry snapshot, restricted to the fields
`_validate_llm_result` reads via `e.get(...)` (absent keys give `none`). -/
structure RegEntity where
  friendly_norm : Option String
  entity_id : Option String
deriving DecidableEq

/-- An area record of the registry snapshot, restricted to the fields
`_find_room` and `_validate_llm_result` read via `area.get(...)`. -/
structure Area where
  name : Option String
  area_id : Option String
  light_entities : Option (List String)
deriving DecidableEq

/-- The registry snapshot as read by the validator: `reg.get("entities", [])`
and `reg.get("areas", [])` with defaults folded in. -/
structure Registry where
  entities : List RegEntity
  areas : List Area
deriving DecidableEq

/-- `_find_room` (`voice_assistant.py` lines 41-46): first area whose
normalized name (default `""`) equals the normalized query. -/
def find_room (reg : Registry) (room_name : String) : Option Area :=
  let room_norm := norm room_name
  reg.areas.find? (fun area => norm (area.name.getD "") == room_norm)

/-- `ALLOWED_SERVICES` (`voice_assistant.py` line 13). -/
def ALLOWED_SERVICES : List String := ["turn_on", "turn_off"]

/-- The dict comprehension
`{e.get("friendly_norm"): e.get("entity_id") for e in reg.get("entities", [])}`
as a lookup function: a later entity with the same key overwrites an earlier
one, exactly as Python dict insertion does; `.get` of an absent key gives the
outer `none`. -/
def validEntitiesLookup (entities : List RegEntity) :
    Option String → Option (Option String) :=
  entities.foldl
    (fun d e => fun k => if k = e.friendly_norm then some e.entity_id else d k)
    (fun _ => none)

/-- The untrusted LLM decision, restricted to the fields
`_validate_llm_result` reads via `result.get(...)`. -/
structure LLMResult where
  service : Option String
  entity_friendly_name : Option String
  room_name : Option String
  data : Option PyDict
deriving DecidableEq

/-- A backend target selector: the single key the payload dict receives
before the cleaned attributes are merged in. -/
inductive HATarget where
  | byAreaId (area_id : String)
  | byEntityList (entity_id : List String)
  | byEntityId (entity_id : String)
deriving DecidableEq

/-- The payload handed to `ha_call`: a target selector plus the cleaned
attribute map merged in by `payload.update(_clean_data(data))`. -/
structure Payload where
  target : HATarget
  data : PyDict
deriving DecidableEq

/-- Python truthiness of an optional string (`None` and `""` are falsy). -/
def truthyStr : Option String → Bool
  | none => false
  | some s => s != ""

/-- `entity_id.split(".", 1)[0]`: the prefix before the first dot. -/
def domainOfEntityId (entity_id : String) : String :=
  String.mk (entity_id.data.takeWhile (fun c => c != '.'))

/-- The `if room_name:` block of `_validate_llm_result`
(`voice_assistant.py` lines 61-75): resolve the room, prefer its `area_id`
over its `light_entities` list, merge the cleaned attributes, and return the
literal domain `"light"`. -/
def validate_room_branch (service room_name : String) (data : PyDict)
    (reg : Registry) : Except ValidationError (String × String × Payload) :=
  match find_room reg room_name with
  | none => .error (.roomNotFound room_name)
  | some area =>
    let aid := area.area_id.getD ""
    if aid != "" then
      match clean_data data with
      | .error e => .error e
      | .ok cd => .ok ("light", service, ⟨HATarget.byAreaId aid, cd⟩)
    else
      let light_entities := area.light_entities.getD []
      if light_entities.isEmpty then
        .error (.noLightsForRoom room_name)
      else
        match clean_data data with
        | .error e => .error e
        | .ok cd =>
          .ok ("light", service, ⟨HATarget.byEntityList light_entities, cd⟩)

/-- The friendly-name block of `_validate_llm_result`
(`voice_assistant.py` lines 77-89): look the normalized friendly name up in
the comprehension-built dict, fail on a falsy result, merge the cleaned
attributes, and derive the domain from the entity id's prefix. -/
def validate_entity_branch (service : String) (entity_friendly_name : Option String)
    (data : PyDict) (reg : Registry) :
    Except ValidationError (String × String × Payload) :=
  if !(truthyStr entity_friendly_name) then
    .error .missingFriendlyName
  else
    let efn := entity_friendly_name.getD ""
    let friendly_norm := norm efn
    let entity_id := ((validEntitiesLookup reg.entities (some friendly_norm)).getD none).getD ""
    if entity_id = "" then
      .error (.entityNotFound efn)
    else
      match clean_data data with
      | .error e => .error e
      | .ok cd =>
        .ok (domainOfEntityId entity_id, service, ⟨HATarget.byEntityId entity_id, cd⟩)

/-- `_validate_llm_result` (`voice_assistant.py` lines 49-89), returning the
`(domain, service, payload)` triple or the raised error: reject a service
outside `ALLOWED_SERVICES` (including a missing one), then take the room
branch when `room_name` is truthy and the entity branch otherwise. -/
def validate_llm_result (result : LLMResult) (reg : Registry) :
    Except ValidationError (String × String × Payload) :=
  let data := result.data.getD []
  match result.service with
  | none => .error (.invalidService none)
  | some service =>
    if service ∈ ALLOWED_SERVICES then
      if truthyStr result.room_name then
        validate_room_branch service (result.room_name.getD "") data reg
      else
        validate_entity_branch service result.entity_friendly_name data reg
    else
      .error (.invalidService (some service))

/-! ### STT escalation: `server.py` lines 30-31 and 112-149.

The two whisper model invocations are external; `transcribe_with_fallback` is
modelled as a function of the fast model's outcome and the robust model's
outcome (the latter only consulted when the escalation predicate fires).
Python floats are modelled as rationals. -/

/-- `LANG_PROB_FALLBACK = 0.60` (`server.py` line 30). -/
def LANG_PROB_FALLBACK : ℚ := mkRat 3 5

/-- `MIN_CHARS_FALLBACK = 3` (`server.py` line 31). -/
def MIN_CHARS_FALLBACK : Nat := 3

/-- The transcription-info object of one model run;
`language_probability` is `none` when the attribute is absent. -/
structure SttInfo where
  language : String
  language_probability : Option ℚ
  duration : ℚ
deriving DecidableEq

/-- One model run's outcome: its info object and the joined segment text. -/
structure SttOutcome where
  info : SttInfo
  text : String
deriving DecidableEq

/-- `getattr(info, "language_probability", 1.0)` (`server.py` line 115). -/
def langProb (info : SttInfo) : ℚ :=
  info.language_probability.getD 1

/-- `need_fallback = (len(text) < MIN_CHARS_FALLBACK) or (lang_prob < LANG_PROB_FALLBACK)`
(`server.py` line 116). -/
def need_fallback (fast : SttOutcome) : Bool :=
  decide (fast.text.length < MIN_CHARS_FALLBACK) || decide (langProb fast.info < LANG_PROB_FALLBACK)

/-- `transcribe_with_fallback` (`server.py` lines 112-149): run the fast
model; if the escalation predicate fires, return the robust model's outcome
tagged `"medium(float16)"`, otherwise the fast outcome tagged
`"small(int8_float16)"`. -/
def transcribe_with_fallback (fast robust : SttOutcome) : SttOutcome × String :=
  if need_fallback fast then
    (robust, "medium(float16)")
  else
    (fast, "small(int8_float16)")

/-- How many times `transcribe_with_fallback` invokes the robust model: once
inside the single `if need_fallback` branch, never otherwise (the code has no
loop or further tier). -/
def robustInvocations (fast : SttOutcome) : Nat :=
  if need_fallback fast then 1 else 0

/-! ### Wake-word arming state machine: `hey_george_listener.py` lines 26-32
and 141-189.

One loop iteration reads a frame and scores it; the mutable loop variables
`armed` and `silence_frames` form the state.  A triggered iteration performs
the capture (recording, transcription, hand-off) and ends with
`armed = False; silence_frames = 0`; the step function returns whether the
iteration captured. -/

/-- `TRIGGER_THRESHOLD = 0.75` (`hey_george_listener.py` line 28). -/
def TRIGGER_THRESHOLD : ℚ := mkRat 3 4

/-- `REARM_THRESHOLD = 0.35` (`hey_george_listener.py` line 29). -/
def REARM_THRESHOLD : ℚ := mkRat 7 20

/-- `REARM_SILENCE_FRAMES = 5` (`hey_george_listener.py` line 32). -/
def REARM_SILENCE_FRAMES : Nat := 5

/-- The mutable state of the `run_listener` loop. -/
structure ListenerState where
  armed : Bool
  silence_frames : Nat
deriving DecidableEq

/-- One iteration of the `run_listener` loop (lines 148-189) on a frame's
wake-word score: returns the successor state and whether a capture was
triggered.  `if armed and score >= TRIGGER_THRESHOLD` performs the capture
and leaves `armed = False, silence_frames = 0`; `elif not armed` counts
consecutive sub-threshold frames and re-arms at `REARM_SILENCE_FRAMES`. -/
def stepFrame (st : ListenerState) (score : ℚ) : ListenerState × Bool :=
  if st.armed && decide (TRIGGER_THRESHOLD ≤ score) then
    (⟨false, 0⟩, true)
  else if !st.armed then
    let sf := if score < REARM_THRESHOLD then st.silence_frames + 1 else 0
    (⟨decide (REARM_SILENCE_FRAMES ≤ sf), sf⟩, false)
  else
    (st, false)

/-- The listener state after processing a sequence of frame scores. -/
def runFrames (st : ListenerState) : List ℚ → ListenerState
  | [] => st
  | score :: rest => runFrames (stepFrame st score).1 rest

/-- A trace contains five consecutive frames all scoring strictly below
`REARM_THRESHOLD`. -/
def HasLowWindow (trace : List ℚ) : Prop :=
  ∃ p q r, trace = p ++ q ++ r ∧ q.length = REARM_SILENCE_FRAMES ∧
    ∀ x ∈ q, x < REARM_THRESHOLD

/-! ### LLM response content extraction: `voice_route.py` lines 186-193.

The tail of `_llm_request` after the HTTP response parses: take
`payload.get("choices") or []`, raise on an empty list, then take
`choices[0].get("message", {}).get("content", "")`, raise on empty content,
and return `content.strip()`. -/

/-- The two `raise RuntimeError(...)` sites of `_llm_request`. -/
inductive LLMProtocolError where
  | missingChoices
  | missingContent
deriving DecidableEq

/-- `choices[i].get("message", {})` shape. -/
structure LLMMessage where
  content : Option String
deriving DecidableEq

/-- One element of the response's `choices` list. -/
structure LLMChoice where
  message : Option LLMMessage
deriving DecidableEq

/-- The parsed LLM endpoint response body, restricted to the key the code
reads (`payload.get("choices")`, `none` when absent). -/
structure LLMResponse where
  choices : Option (List LLMChoice)
deriving DecidableEq

/-- `content.strip()` over the ASCII whitespace model. -/
def pyStrip (s : String) : String :=
  String.mk (stripList s.data)

/-- `_llm_request` response handling (`voice_route.py` lines 186-193). -/
def llmExtractContent (resp : LLMResponse) : Except LLMProtocolError String :=
  let choices := resp.choices.getD []
  match choices with
  | [] => .error .missingChoices
  | c :: _ =>
    let content := ((c.message.getD ⟨none⟩).content.getD "")
    if content = "" then .error .missingContent
    else .ok (pyStrip content)

/-! ### Registry snapshot loading: `voice_route.py` lines 23-24.

`load_registry` is `json.loads(Path(registry_path).read_text())`.  The file
system and the parser are external: the input is modelled as `none` when the
file is missing (`read_text` raises `FileNotFoundError`), `some none` when
its contents do not parse (`json.loads` raises `JSONDecodeError`), and
`some (some j)` when the contents parse to the JSON value `j`. -/

/-- A JSON value, as produced by `json.loads`. -/
inductive JVal where
  | obj (fields : List (String × JVal))
  | arr (elems : List JVal)
  | str (s : String)
  | num (n : Int)
  | bool (b : Bool)
  | null

/-- Whether a JSON value is an object with the given top-level key. -/
def JVal.hasKey : JVal → String → Bool
  | .obj fields, k => fields.any (fun kv => kv.1 == k)
  | _, _ => false

/-- The exceptions `load_registry` can let escape. -/
inductive LoadError where
  | fileNotFoundError
  | jsonDecodeError
deriving DecidableEq

/-- `load_registry` (`voice_route.py` lines 23-24): read the file and parse
it; the parsed value is returned as-is, with no inspection of its keys. -/
def load_registry (file : Option (Option JVal)) : Except LoadError JVal :=
  match file with
  | none => .error .fileNotFoundError
  | some none => .error .jsonDecodeError
  | some (some j) => .ok j

/-! ## Claim theorems -/

/-- C2: the STT engine escalates to the robust model if and only if the fast
text has fewer than `MIN_CHARS_FALLBACK = 3` characters or the language
confidence is strictly below `LANG_PROB_FALLBACK = 0.60`; at confidence
exactly `0.60` with text of length at least 3 it does not escalate; the
robust model is invoked at most once; and the returned outcome is the robust
model's tagged `"medium(float16)"` exactly when escalation occurred, the fast
model's tagged `"small(int8_float16)"` otherwise. -/
theorem stt_escalation_policy :
    (∀ fast : SttOutcome,
      need_fallback fast = true ↔
        (fast.text.length < MIN_CHARS_FALLBACK ∨
          langProb fast.info < LANG_PROB_FALLBACK)) ∧
    need_fallback ⟨⟨"en", some LANG_PROB_FALLBACK, 4⟩, "turn on"⟩ = false ∧
    (∀ fast : SttOutcome, robustInvocations fast ≤ 1) ∧
    (∀ fast robust : SttOutcome,
      (need_fallback fast = true ∧
        transcribe_with_fallback fast robust = (robust, "medium(float16)")) ∨
      (need_fallback fast = false ∧
        transcribe_with_fallback fast robust = (fast, "small(int8_float16)"))) := by
  refine ⟨fun fast => ?_, by decide, fun fast => ?_, fun fast robust => ?_⟩
  · simp [need_fallback]
  · unfold robustInvocations
    split
    · exact Nat.le_refl 1
    · exact Nat.zero_le 1
  · cases h : need_fallback fast
    · exact Or.inr ⟨rfl, by simp [transcribe_with_fallback, h]⟩
    · exact Or.inl ⟨rfl, by simp [transcribe_with_fallback, h]⟩

/-- C7: a response whose `choices` list is absent or empty fails with the
missing-choices protocol error and nothing else; a first choice with empty
(or absent) message content fails with the missing-content protocol error;
and extraction succeeds only when the first choice carries non-empty content,
so a malformed response is never returned as a result. -/
theorem llm_empty_response_protocol_error :
    (∀ resp : LLMResponse, resp.choices.getD [] = [] →
      llmExtractContent resp = .error .missingChoices) ∧
    (∀ (resp : LLMResponse) (first : LLMChoice) (rest : List LLMChoice),
      resp.choices = some (first :: rest) →
      ((first.message.getD ⟨none⟩).content.getD "") = "" →
      llmExtractContent resp = .error .missingContent) ∧
    (∀ (resp : LLMResponse) (s : String), llmExtractContent resp = .ok s →
      ∃ first rest, resp.choices = some (first :: rest) ∧
        ((first.message.getD ⟨none⟩).content.getD "") ≠ "") := by
  refine ⟨fun resp h => ?_, fun resp first rest h hc => ?_, fun resp s h => ?_⟩
  · unfold llmExtractContent
    rw [h]
  · unfold llmExtractContent
    rw [h]
    simp [hc]
  · unfold llmExtractContent at h
    cases hch : resp.choices.getD [] with
    | nil => rw [hch] at h; cases h
    | cons first rest =>
      rw [hch] at h
      dsimp only at h
      by_cases hc : ((first.message.getD ⟨none⟩).content.getD "") = ""
      · rw [if_pos hc] at h; cases h
      · refine ⟨first, rest, ?_, hc⟩
        cases hcho : resp.choices with
        | none => rw [hcho] at hch; simp at hch
        | some l => rw [hcho] at hch; simp at hch; rw [hch]

/-- C7 witness: concrete malformed responses fail with the protocol error. -/
theorem llm_empty_response_protocol_error_witness :
    llmExtractContent ⟨some []⟩ = .error .missingChoices ∧
    llmExtractContent ⟨none⟩ = .error .missingChoices ∧
    llmExtractContent ⟨some [⟨some ⟨some ""⟩⟩]⟩ = .error .missingContent :=
  ⟨llm_empty_response_protocol_error.1 ⟨some []⟩ rfl,
   llm_empty_response_protocol_error.1 ⟨none⟩ rfl,
   llm_empty_response_protocol_error.2.1 ⟨some [⟨some ⟨some ""⟩⟩]⟩ ⟨some ⟨some ""⟩⟩ [] rfl rfl⟩

/-- C8 counterexample: loading a file whose contents parse to the empty JSON
object succeeds and returns it, although it is missing every required key —
`load_registry` performs no structural validation. -/
theorem load_registry_accepts_invalid_structure :
    load_registry (some (some (JVal.obj []))) = .ok (JVal.obj []) ∧
    (JVal.obj []).hasKey "entities" = false ∧
    (JVal.obj []).hasKey "areas" = false ∧
    (JVal.obj []).hasKey "index" = false :=
  ⟨rfl, rfl, rfl, rfl⟩

/-- C8 (amended): loading fails when the file is missing (`FileNotFoundError`
from `read_text`) and when its contents do not parse (`JSONDecodeError` from
`json.loads`), but any parsed JSON value is returned as the snapshot with no
check of its keys. -/
theorem load_registry_failure_modes :
    load_registry none = .error .fileNotFoundError ∧
    load_registry (some none) = .error .jsonDecodeError ∧
    (∀ j : JVal, load_registry (some (some j)) = .ok j) :=
  ⟨rfl, rfl, fun _ => rfl⟩

/-- C10: validation accepts exactly the services `turn_on` and `turn_off`:
any other service value (including `not_applicable` and a missing one) fails
with the invalid-service error regardless of the registry and the targets,
so the error is raised before any target resolution. -/
theorem validate_rejects_unknown_service :
    (∀ (result : LLMResult) (reg : Registry),
      (∀ s ∈ ALLOWED_SERVICES, result.service ≠ some s) →
      validate_llm_result result reg = .error (.invalidService result.service)) ∧
    (∀ (result : LLMResult) (reg : Registry) (out : String × String × Payload),
      validate_llm_result result reg = .ok out →
      result.service = some "turn_on" ∨ result.service = some "turn_off") ∧
    (∀ (reg : Registry) (efn rn : Option String) (data : Option PyDict),
      validate_llm_result ⟨some "not_applicable", efn, rn, data⟩ reg =
        .error (.invalidService (some "not_applicable"))) := by
  refine ⟨fun result reg h => ?_, fun result reg out hok => ?_,
    fun reg efn rn data => ?_⟩
  · cases hs : result.service with
    | none => simp [validate_llm_result, hs]
    | some sv =>
      have hns : sv ∉ ALLOWED_SERVICES := fun hm => (h sv hm) hs
      simp [validate_llm_result, hs, hns]
  · unfold validate_llm_result at hok
    cases hs : result.service with
    | none => rw [hs] at hok; cases hok
    | some sv =>
      rw [hs] at hok
      dsimp at hok
      by_cases hm : sv ∈ ALLOWED_SERVICES
      · simp [ALLOWED_SERVICES] at hm
        rcases hm with hm | hm
        · exact Or.inl (by rw [hm])
        · exact Or.inr (by rw [hm])
      · rw [if_neg hm] at hok; cases hok
  · simp [validate_llm_result, ALLOWED_SERVICES]

/-- C10 witness: a concrete unknown service is rejected with the
invalid-service error. -/
theorem validate_rejects_unknown_service_witness :
    validate_llm_result ⟨some "toggle", none, none, none⟩ ⟨[], []⟩ =
      .error (.invalidService (some "toggle")) :=
  validate_rejects_unknown_service.1 ⟨some "toggle", none, none, none⟩ ⟨[], []⟩
    (by decide)

/-- A successful room branch always reports domain `"light"` and echoes the
service. -/
lemma room_branch_ok_fields (sv rn : String) (data : PyDict) (reg : Registry)
    (out : String × String × Payload)
    (h : validate_room_branch sv rn data reg = .ok out) :
    out.1 = "light" ∧ out.2.1 = sv := by
  unfold validate_room_branch at h
  cases hf : find_room reg rn with
  | none => rw [hf] at h; cases h
  | some area =>
    rw [hf] at h
    dsimp only at h
    by_cases haid : (area.area_id.getD "" != "") = true
    · rw [if_pos haid] at h
      cases hc : clean_data data with
      | error e => rw [hc] at h; cases h
      | ok cd =>
        rw [hc] at h
        injection h with h1
        rw [← h1]
        exact ⟨rfl, rfl⟩
    · rw [if_neg haid] at h
      by_cases hle : (area.light_entities.getD []).isEmpty = true
      · rw [if_pos hle] at h; cases h
      · rw [if_neg hle] at h
        cases hc : clean_data data with
        | error e => rw [hc] at h; cases h
        | ok cd =>
          rw [hc] at h
          injection h with h1
          rw [← h1]
          exact ⟨rfl, rfl⟩

/-- When the resolved area carries a non-empty `area_id`, a successful room
branch targets that `area_id`. -/
lemma room_branch_ok_area_id (sv rn : String) (data : PyDict) (reg : Registry)
    (area : Area) (aid : String) (out : String × String × Payload)
    (hfind : find_room reg rn = some area)
    (haid : area.area_id = some aid) (hane : aid ≠ "")
    (h : validate_room_branch sv rn data reg = .ok out) :
    out.2.2.target = HATarget.byAreaId aid := by
  unfold validate_room_branch at h
  rw [hfind] at h
  dsimp only at h
  have hcond : (area.area_id.getD "" != "") = true := by
    rw [haid]
    simpa using hane
  rw [if_pos hcond] at h
  cases hc : clean_data data with
  | error e => rw [hc] at h; cases h
  | ok cd =>
    rw [hc] at h
    injection h with h1
    rw [← h1]
    dsimp only
    rw [haid]
    rfl

/-- A successful entity branch targets a single entity id and derives the
domain from its prefix. -/
lemma entity_branch_ok_fields (sv : String) (efn : Option String)
    (data : PyDict) (reg : Registry) (out : String × String × Payload)
    (h : validate_entity_branch sv efn data reg = .ok out) :
    ∃ eid, out.2.2.target = HATarget.byEntityId eid ∧
      out.1 = domainOfEntityId eid ∧ out.2.1 = sv := by
  unfold validate_entity_branch at h
  by_cases ht : (!(truthyStr efn)) = true
  · rw [if_pos ht] at h; cases h
  · rw [if_neg ht] at h
    dsimp only at h
    by_cases he :
      (((validEntitiesLookup reg.entities (some (norm (efn.getD "")))).getD none).getD "") = ""
    · rw [if_pos he] at h; cases h
    · rw [if_neg he] at h
      cases hc : clean_data data with
      | error e => rw [hc] at h; cases h
      | ok cd =>
        rw [hc] at h
        injection h with h1
        rw [← h1]
        exact ⟨_, rfl, rfl, rfl⟩

/-- C9: every command that passes validation with a truthy room name carries
the literal domain `"light"`, whatever the registry contains; and every
command validated without a room name targets a single entity id and derives
its domain from that id's prefix before the first dot. -/
theorem room_commands_have_domain_light :
    (∀ (result : LLMResult) (reg : Registry) (out : String × String × Payload),
      truthyStr result.room_name = true →
      validate_llm_result result reg = .ok out → out.1 = "light") ∧
    (∀ (result : LLMResult) (reg : Registry) (out : String × String × Payload),
      truthyStr result.room_name = false →
      validate_llm_result result reg = .ok out →
      ∃ eid, out.2.2.target = HATarget.byEntityId eid ∧
        out.1 = domainOfEntityId eid) := by
  constructor
  · intro result reg out htr hok
    unfold validate_llm_result at hok
    cases hs : result.service with
    | none => rw [hs] at hok; cases hok
    | some sv =>
      rw [hs] at hok
      dsimp only at hok
      by_cases hm : sv ∈ ALLOWED_SERVICES
      · rw [if_pos hm, htr, if_pos rfl] at hok
        exact (room_branch_ok_fields sv _ _ reg out hok).1
      · rw [if_neg hm] at hok; cases hok
  · intro result reg out htr hok
    unfold validate_llm_result at hok
    cases hs : result.service with
    | none => rw [hs] at hok; cases hok
    | some sv =>
      rw [hs] at hok
      dsimp only at hok
      by_cases hm : sv ∈ ALLOWED_SERVICES
      · rw [if_pos hm, htr, if_neg (by simp)] at hok
        obtain ⟨eid, h1, h2, _⟩ := entity_branch_ok_fields sv _ _ reg out hok
        exact ⟨eid, h1, h2⟩
      · rw [if_neg hm] at hok; cases hok

/-- C9 witness: a room of switches still validates to domain `"light"`, and
an entity command derives its domain from the id prefix. -/
theorem room_commands_have_domain_light_witness :
    ("light", "turn_on",
      (⟨HATarget.byEntityList ["switch.corner"], []⟩ : Payload)).1 = "light" :=
  room_commands_have_domain_light.1
    ⟨some "turn_on", none, some "den", none⟩
    ⟨[], [⟨some "den", none, some ["switch.corner"]⟩]⟩
    ("light", "turn_on", ⟨HATarget.byEntityList ["switch.corner"], []⟩)
    (by decide) (by rfl)

/-- C4: when the room-name field is truthy the validation outcome is
independent of the friendly-name field (the entity branch is never taken);
a truthy room name that fails room lookup makes validation fail with the
room-not-found error; and when the resolved room carries a non-empty
backend-native `area_id`, the validated command targets that area id rather
than the room's entity list. -/
theorem room_name_preferred_over_entity :
    (∀ (service : Option String) (efn1 efn2 room_name : Option String)
        (data : Option PyDict) (reg : Registry),
      truthyStr room_name = true →
      validate_llm_result ⟨service, efn1, room_name, data⟩ reg =
        validate_llm_result ⟨service, efn2, room_name, data⟩ reg) ∧
    (∀ (result : LLMResult) (reg : Registry) (sv rn : String),
      result.service = some sv → sv ∈ ALLOWED_SERVICES →
      result.room_name = some rn → rn ≠ "" →
      find_room reg rn = none →
      validate_llm_result result reg = .error (.roomNotFound rn)) ∧
    (∀ (result : LLMResult) (reg : Registry) (rn : String) (area : Area)
        (aid : String) (out : String × String × Payload),
      result.room_name = some rn → rn ≠ "" →
      find_room reg rn = some area →
      area.area_id = some aid → aid ≠ "" →
      validate_llm_result result reg = .ok out →
      out.2.2.target = HATarget.byAreaId aid) := by
  refine ⟨fun service efn1 efn2 room_name data reg htr => ?_,
    fun result reg sv rn hs hm hr hrne hfind => ?_,
    fun result reg rn area aid out hr hrne hfind haid hane hok => ?_⟩
  · cases service with
    | none => rfl
    | some sv => simp [validate_llm_result, htr]
  · have htr : truthyStr result.room_name = true := by
      rw [hr]; simp [truthyStr, hrne]
    unfold validate_llm_result
    rw [hs]
    dsimp only
    rw [if_pos hm, htr, if_pos rfl]
    unfold validate_room_branch
    rw [hr]
    simp only [Option.getD_some]
    rw [hfind]
  · have htr : truthyStr result.room_name = true := by
      rw [hr]; simp [truthyStr, hrne]
    unfold validate_llm_result at hok
    cases hs : result.service with
    | none => rw [hs] at hok; cases hok
    | some sv =>
      rw [hs] at hok
      dsimp only at hok
      by_cases hm : sv ∈ ALLOWED_SERVICES
      · rw [if_pos hm, htr, if_pos rfl, hr] at hok
        simp only [Option.getD_some] at hok
        exact room_branch_ok_area_id sv rn _ reg area aid out hfind haid hane hok
      · rw [if_neg hm] at hok; cases hok

/-- C4 witness: with both a room name and a friendly name present, a concrete
validation targets the room's area id. -/
theorem room_name_preferred_over_entity_witness :
    ("light", "turn_off",
      (⟨HATarget.byAreaId "area_lr", []⟩ : Payload)).2.2.target =
      HATarget.byAreaId "area_lr" :=
  room_name_preferred_over_entity.2.2
    ⟨some "turn_off", some "Noguchi", some "Living Room", none⟩
    ⟨[⟨some "noguchi", some "light.noguchi"⟩],
     [⟨some "living room", some "area_lr", some ["light.a", "light.b"]⟩]⟩
    "Living Room"
    ⟨some "living room", some "area_lr", some ["light.a", "light.b"]⟩
    "area_lr"
    ("light", "turn_off", ⟨HATarget.byAreaId "area_lr", []⟩)
    rfl (by decide) (by decide) rfl (by decide) (by rfl)

/-- C3: attribute cleaning only ever outputs the keys `brightness_pct`
(clamped to `[1, 100]`) and `color_temp_kelvin` (clamped to `[2300, 4000]`),
coercing present values to integers; it errs exactly when a present value of
one of those two keys fails integer coercion, and the error is always an
invalid-attribute error; the spec's clamping examples hold concretely and all
other keys are dropped without error. -/
theorem clean_data_spec :
    (∀ (data cleaned : PyDict), clean_data data = .ok cleaned →
      ∀ kv ∈ cleaned, kv.1 = "brightness_pct" ∨ kv.1 = "color_temp_kelvin") ∧
    (∀ (data cleaned : PyDict), clean_data data = .ok cleaned →
      ∀ n : Int, ("brightness_pct", PyVal.int n) ∈ cleaned → 1 ≤ n ∧ n ≤ 100) ∧
    (∀ (data cleaned : PyDict), clean_data data = .ok cleaned →
      ∀ n : Int, ("color_temp_kelvin", PyVal.int n) ∈ cleaned →
        2300 ≤ n ∧ n ≤ 4000) ∧
    (∀ data : PyDict,
      (∃ e, clean_data data = .error e) ↔
        ((∃ v, data.lookup "brightness_pct" = some v ∧ pyInt v = none) ∨
         (∃ v, data.lookup "color_temp_kelvin" = some v ∧ pyInt v = none))) ∧
    (∀ (data : PyDict) (e : ValidationError), clean_data data = .error e →
      e = .invalidAttribute "brightness_pct must be an integer" ∨
      e = .invalidAttribute "color_temp_kelvin must be an integer") ∧
    clean_data [("brightness_pct", PyVal.int 150)] =
      .ok [("brightness_pct", PyVal.int 100)] ∧
    clean_data [("brightness_pct", PyVal.int 0)] =
      .ok [("brightness_pct", PyVal.int 1)] ∧
    clean_data [("color_temp_kelvin", PyVal.int 5000)] =
      .ok [("color_temp_kelvin", PyVal.int 4000)] ∧
    clean_data [("color_temp_kelvin", PyVal.int 1000)] =
      .ok [("color_temp_kelvin", PyVal.int 2300)] ∧
    clean_data [("brightness_pct", PyVal.str "50")] =
      .ok [("brightness_pct", PyVal.int 50)] ∧
    clean_data [("brightness_pct", PyVal.str "bright")] =
      .error (.invalidAttribute "brightness_pct must be an integer") ∧
    clean_data [("brightness_pct", PyVal.pynone)] =
      .error (.invalidAttribute "brightness_pct must be an integer") ∧
    clean_data [("mystery_key", PyVal.str "zap"), ("volume", PyVal.int 11)] =
      .ok [] := by
  refine ⟨?_, ?_, ?_, ?_, ?_, by rfl, by rfl, by rfl, by rfl, by rfl, by rfl,
    by rfl, by rfl⟩
  · intro data cleaned hok kv hmem
    unfold clean_data at hok
    rcases hb : data.lookup "brightness_pct" with _ | vb <;>
      rcases hc : data.lookup "color_temp_kelvin" with _ | vc <;>
        rw [hb, hc] at hok <;> dsimp only at hok
    · injection hok with h1; rw [← h1] at hmem; cases hmem
    · cases hpc : pyInt vc with
      | none => rw [hpc] at hok; cases hok
      | some nc =>
        rw [hpc] at hok
        injection hok with h1
        rw [← h1] at hmem
        simp at hmem
        rw [hmem]
        exact Or.inr rfl
    · cases hpb : pyInt vb with
      | none => rw [hpb] at hok; cases hok
      | some nb =>
        rw [hpb] at hok
        injection hok with h1
        rw [← h1] at hmem
        simp at hmem
        rw [hmem]
        exact Or.inl rfl
    · cases hpb : pyInt vb with
      | none => rw [hpb] at hok; cases hok
      | some nb =>
        rw [hpb] at hok
        dsimp only at hok
        cases hpc : pyInt vc with
        | none => rw [hpc] at hok; cases hok
        | some nc =>
          rw [hpc] at hok
          injection hok with h1
          rw [← h1] at hmem
          simp at hmem
          rcases hmem with hmem | hmem <;> rw [hmem]
          · exact Or.inl rfl
          · exact Or.inr rfl
  · intro data cleaned hok n hmem
    unfold clean_data at hok
    rcases hb : data.lookup "brightness_pct" with _ | vb <;>
      rcases hc : data.lookup "color_temp_kelvin" with _ | vc <;>
        rw [hb, hc] at hok <;> dsimp only at hok
    · injection hok with h1; rw [← h1] at hmem; cases hmem
    · cases hpc : pyInt vc with
      | none => rw [hpc] at hok; cases hok
      | some nc =>
        rw [hpc] at hok
        injection hok with h1
        rw [← h1] at hmem
        simp at hmem
    · cases hpb : pyInt vb with
      | none => rw [hpb] at hok; cases hok
      | some nb =>
        rw [hpb] at hok
        injection hok with h1
        rw [← h1] at hmem
        simp at hmem
        rw [hmem]
        omega
    · cases hpb : pyInt vb with
      | none => rw [hpb] at hok; cases hok
      | some nb =>
        rw [hpb] at hok
        dsimp only at hok
        cases hpc : pyInt vc with
        | none => rw [hpc] at hok; cases hok
        | some nc =>
          rw [hpc] at hok
          injection hok with h1
          rw [← h1] at hmem
          simp at hmem
          rw [hmem]
          omega
  · intro data cleaned hok n hmem
    unfold clean_data at hok
    rcases hb : data.lookup "brightness_pct" with _ | vb <;>
      rcases hc : data.lookup "color_temp_kelvin" with _ | vc <;>
        rw [hb, hc] at hok <;> dsimp only at hok
    · injection hok with h1; rw [← h1] at hmem; cases hmem
    · cases hpc : pyInt vc with
      | none => rw [hpc] at hok; cases hok
      | some nc =>
        rw [hpc] at hok
        injection hok with h1
        rw [← h1] at hmem
        simp at hmem
        rw [hmem]
        omega
    · cases hpb : pyInt vb with
      | none => rw [hpb] at hok; cases hok
      | some nb =>
        rw [hpb] at hok
        injection hok with h1
        rw [← h1] at hmem
        simp at hmem
    · cases hpb : pyInt vb with
      | none => rw [hpb] at hok; cases hok
      | some nb =>
        rw [hpb] at hok
        dsimp only at hok
        cases hpc : pyInt vc with
        | none => rw [hpc] at hok; cases hok
        | some nc =>
          rw [hpc] at hok
          injection hok with h1
          rw [← h1] at hmem
          simp at hmem
          rw [hmem]
          omega
  · intro data
    rcases hb : data.lookup "brightness_pct" with _ | vb <;>
      rcases hc : data.lookup "color_temp_kelvin" with _ | vc
    · simp [clean_data, hb, hc]
    · cases hpc : pyInt vc <;> simp [clean_data, hb, hc, hpc]
    · cases hpb : pyInt vb <;> simp [clean_data, hb, hc, hpb]
    · cases hpb : pyInt vb <;> cases hpc : pyInt vc <;>
        simp [clean_data, hb, hc, hpb, hpc]
  · intro data e herr
    unfold clean_data at herr
    rcases hb : data.lookup "brightness_pct" with _ | vb <;>
      rcases hc : data.lookup "color_temp_kelvin" with _ | vc <;>
        rw [hb, hc] at herr <;> dsimp only at herr
    · cases herr
    · cases hpc : pyInt vc with
      | none => rw [hpc] at herr; injection herr with h1; exact Or.inr h1.symm
      | some nc => rw [hpc] at herr; cases herr
    · cases hpb : pyInt vb with
      | none => rw [hpb] at herr; injection herr with h1; exact Or.inl h1.symm
      | some nb => rw [hpb] at herr; cases herr
    · cases hpb : pyInt vb with
      | none => rw [hpb] at herr; injection herr with h1; exact Or.inl h1.symm
      | some nb =>
        rw [hpb] at herr
        dsimp only at herr
        cases hpc : pyInt vc with
        | none => rw [hpc] at herr; injection herr with h1; exact Or.inr h1.symm
        | some nc => rw [hpc] at herr; cases herr

/-- C3 witness: the clamped brightness of the `150` example obeys the bounds
proved for every cleaned map. -/
theorem clean_data_spec_witness : (1 : Int) ≤ 100 ∧ (100 : Int) ≤ 100 :=
  clean_data_spec.2.1 [("brightness_pct", PyVal.int 150)]
    [("brightness_pct", PyVal.int 100)] (by rfl) 100 (by simp)

/-- Looking a key up in the comprehension-built dict returns the entry of the
last matching entity (later insertions overwrite earlier ones). -/
lemma validEntitiesLookup_foldl (es : List RegEntity)
    (d : Option String → Option (Option String)) (k : Option String) :
    es.foldl
        (fun d e => fun q => if q = e.friendly_norm then some e.entity_id else d q)
        d k =
      match es.reverse.find? (fun e => e.friendly_norm == k) with
      | some e => some e.entity_id
      | none => d k := by
  induction es generalizing d with
  | nil => rfl
  | cons e rest ih =>
    rw [List.foldl_cons, ih, List.reverse_cons, List.find?_append]
    cases hf : rest.reverse.find? (fun e2 => e2.friendly_norm == k) with
    | some e2 => simp
    | none =>
      by_cases hk : e.friendly_norm = k
      · simp [List.find?, hk]
      · have hk2 : ¬(k = e.friendly_norm) := fun h => hk h.symm
        have hb : (e.friendly_norm == k) = false := by simp [hk]
        simp only [Option.none_or, List.find?, hb]
        rw [if_neg hk2]

/-- The lookup `valid_entities.get(friendly_norm)` equals the last matching
entity's id entry, or `none` when no entity matches. -/
lemma validEntitiesLookup_eq (es : List RegEntity) (k : Option String) :
    validEntitiesLookup es k =
      match es.reverse.find? (fun e => e.friendly_norm == k) with
      | some e => some e.entity_id
      | none => none :=
  validEntitiesLookup_foldl es (fun _ => none) k

/-- C1 counterexample: two registry entities whose friendly names normalize
to the same key, with distinct entity ids; validating a decision targeting
that friendly name succeeds and silently resolves to the second entity's id,
surfacing no ambiguity or not-found error. -/
theorem friendly_collision_not_an_error :
    norm "Desk Lamp" = "desk lamp" ∧
    norm "desk_lamp!!" = "desk lamp" ∧
    ("light.desk_a" : String) ≠ "light.desk_b" ∧
    validate_llm_result ⟨some "turn_on", some "Desk Lamp", none, none⟩
      ⟨[⟨some "desk lamp", some "light.desk_a"⟩,
        ⟨some "desk lamp", some "light.desk_b"⟩], []⟩ =
      .ok ("light", "turn_on", ⟨HATarget.byEntityId "light.desk_b", []⟩) :=
  ⟨by decide, by decide, by decide, by rfl⟩

/-- C1 (amended): when the friendly-name target's normalized key matches one
or more registry entities, validation resolves to the entity id of the LAST
matching entity in the snapshot's entity list — the dict comprehension keyed
on `friendly_norm` lets later insertions overwrite earlier ones — and raises
no error as long as that id is non-empty. -/
theorem friendly_collision_resolves_to_last_match :
    ∀ (result : LLMResult) (reg : Registry) (sv fn eid : String) (e : RegEntity),
      result.service = some sv → sv ∈ ALLOWED_SERVICES →
      truthyStr result.room_name = false →
      result.entity_friendly_name = some fn → fn ≠ "" →
      reg.entities.reverse.find? (fun en => en.friendly_norm == some (norm fn)) =
        some e →
      e.entity_id = some eid → eid ≠ "" →
      validate_llm_result result reg =
        (match clean_data (result.data.getD []) with
         | .error er => .error er
         | .ok cd => .ok (domainOfEntityId eid, sv, ⟨HATarget.byEntityId eid, cd⟩)) := by
  intro result reg sv fn eid e hs hm htr hefn hfne hfind heid hene
  unfold validate_llm_result
  rw [hs]
  dsimp only
  rw [if_pos hm, htr, if_neg (by simp)]
  unfold validate_entity_branch
  have htre : truthyStr result.entity_friendly_name = true := by
    rw [hefn]; simp [truthyStr, hfne]
  rw [htre, if_neg (by simp)]
  rw [hefn]
  simp only [Option.getD_some]
  rw [validEntitiesLookup_eq, hfind]
  dsimp only
  rw [heid]
  simp only [Option.getD_some]
  rw [if_neg hene]

/-- C1 witness: the last-match resolution at a concrete colliding registry. -/
theorem friendly_collision_resolves_to_last_match_witness :
    validate_llm_result ⟨some "turn_off", some "Shelf Light", none, none⟩
      ⟨[⟨some "shelf light", some "switch.shelf_one"⟩,
        ⟨some "shelf light", some "switch.shelf_two"⟩], []⟩ =
      .ok ("switch", "turn_off", ⟨HATarget.byEntityId "switch.shelf_two", []⟩) :=
  (friendly_collision_resolves_to_last_match
    ⟨some "turn_off", some "Shelf Light", none, none⟩
    ⟨[⟨some "shelf light", some "switch.shelf_one"⟩,
      ⟨some "shelf light", some "switch.shelf_two"⟩], []⟩
    "turn_off" "Shelf Light" "switch.shelf_two"
    ⟨some "shelf light", some "switch.shelf_two"⟩
    rfl (by decide) (by decide) rfl (by decide) (by decide) rfl
    (by decide)).trans (by rfl)

/-- One capture step from an armed state at or above the trigger threshold. -/
lemma stepFrame_trigger (c : Nat) (score : ℚ) (h : TRIGGER_THRESHOLD ≤ score) :
    stepFrame ⟨true, c⟩ score = (⟨false, 0⟩, true) := by
  simp [stepFrame, h]

/-- An armed state below the trigger threshold is unchanged. -/
lemma stepFrame_no_trigger (c : Nat) (score : ℚ) (h : ¬TRIGGER_THRESHOLD ≤ score) :
    stepFrame ⟨true, c⟩ score = (⟨true, c⟩, false) := by
  simp [stepFrame, h]

/-- The unarmed step counts consecutive sub-threshold frames and re-arms at
`REARM_SILENCE_FRAMES`. -/
lemma stepFrame_unarmed (c : Nat) (score : ℚ) :
    stepFrame ⟨false, c⟩ score =
      (⟨decide (REARM_SILENCE_FRAMES ≤ (if score < REARM_THRESHOLD then c + 1 else 0)),
        if score < REARM_THRESHOLD then c + 1 else 0⟩, false) := by
  simp [stepFrame]

/-- A low window survives appending a frame on the right. -/
lemma hasLowWindow_append (l : List ℚ) (x : ℚ) (h : HasLowWindow l) :
    HasLowWindow (l ++ [x]) := by
  obtain ⟨p, q, r, hsplit, hlen, hlow⟩ := h
  exact ⟨p, q, r ++ [x], by rw [hsplit]; simp, hlen, hlow⟩

/-- Invariant of the listener loop: an armed state certifies a past window of
`REARM_SILENCE_FRAMES` consecutive low frames, and an unarmed state's counter
counts exactly the trailing run of low frames (never exceeding 4). -/
def ListenerInv (processed : List ℚ) (st : ListenerState) : Prop :=
  (st.armed = true → HasLowWindow processed) ∧
  (st.armed = false →
    st.silence_frames ≤ 4 ∧
    ∃ p q, processed = p ++ q ∧ q.length = st.silence_frames ∧
      ∀ x ∈ q, x < REARM_THRESHOLD)

/-- One loop iteration preserves the listener invariant. -/
lemma stepFrame_inv (processed : List ℚ) (st : ListenerState) (score : ℚ)
    (h : ListenerInv processed st) :
    ListenerInv (processed ++ [score]) (stepFrame st score).1 := by
  unfold ListenerInv
  obtain ⟨armed, c⟩ := st
  cases armed with
  | true =>
    by_cases htrig : TRIGGER_THRESHOLD ≤ score
    · rw [stepFrame_trigger c score htrig]
      refine ⟨fun hfalse => Bool.noConfusion hfalse, fun _ => ?_⟩
      exact ⟨by simp, ⟨processed ++ [score], [], by simp, rfl, by simp⟩⟩
    · rw [stepFrame_no_trigger c score htrig]
      exact ⟨fun _ => hasLowWindow_append processed score (h.1 rfl),
        fun hfalse => by cases hfalse⟩
  | false =>
    rw [stepFrame_unarmed c score]
    obtain ⟨hc4, p, q, hsplit, hlen, hlow⟩ := h.2 rfl
    dsimp only at hc4 hlen
    by_cases hsc : score < REARM_THRESHOLD
    · rw [if_pos hsc]
      by_cases h5 : REARM_SILENCE_FRAMES ≤ c + 1
      · have hc : c = 4 := by
          unfold REARM_SILENCE_FRAMES at h5
          omega
        refine ⟨fun _ => ?_, fun habs => ?_⟩
        · refine ⟨p, q ++ [score], [], ?_, ?_, ?_⟩
          · rw [hsplit]; simp
          · simp [hlen, hc, REARM_SILENCE_FRAMES]
          · intro x hx
            rcases List.mem_append.mp hx with hx | hx
            · exact hlow x hx
            · rw [List.mem_singleton.mp hx]; exact hsc
        · dsimp only at habs
          rw [decide_eq_false_iff_not] at habs
          exact absurd h5 habs
      · have hd : decide (REARM_SILENCE_FRAMES ≤ c + 1) = false :=
          decide_eq_false h5
        rw [hd]
        refine ⟨fun habs => Bool.noConfusion habs, fun _ => ?_⟩
        refine ⟨by dsimp only; unfold REARM_SILENCE_FRAMES at h5; omega, ?_⟩
        refine ⟨p, q ++ [score], ?_, ?_, ?_⟩
        · rw [hsplit]; simp
        · dsimp only
          rw [List.length_append, hlen]
          rfl
        · intro x hx
          rcases List.mem_append.mp hx with hx | hx
          · exact hlow x hx
          · rw [List.mem_singleton.mp hx]; exact hsc
    · rw [if_neg hsc]
      have hd : decide (REARM_SILENCE_FRAMES ≤ 0) = false := by decide
      rw [hd]
      refine ⟨fun habs => Bool.noConfusion habs, fun _ => ?_⟩
      exact ⟨by simp, ⟨processed ++ [score], [], by simp, rfl, by simp⟩⟩

/-- Processing a trace preserves the listener invariant. -/
lemma runFrames_inv :
    ∀ (trace processed : List ℚ) (st : ListenerState),
      ListenerInv processed st →
      ListenerInv (processed ++ trace) (runFrames st trace) := by
  intro trace
  induction trace with
  | nil => intro processed st h; simpa using h
  | cons s rest ih =>
    intro processed st h
    show ListenerInv (processed ++ s :: rest) (runFrames (stepFrame st s).1 rest)
    have h3 := ih (processed ++ [s]) (stepFrame st s).1 (stepFrame_inv processed st s h)
    simpa using h3

/-- C5: while armed, a frame triggers capture exactly when its score reaches
`TRIGGER_THRESHOLD = 0.75` (so it fires at `0.75` and not at `0.7499`); after
a capture the counter resets to zero on any frame at or above
`REARM_THRESHOLD = 0.35`, increments on a frame strictly below it, re-arming
exactly when it reaches `REARM_SILENCE_FRAMES = 5`; and from the post-capture
state the machine is armed only if the observed trace contained five
consecutive frames strictly below `0.35`. -/
theorem wake_word_trigger_and_rearm :
    (∀ (c : Nat) (score : ℚ),
      (stepFrame ⟨true, c⟩ score).2 = true ↔ TRIGGER_THRESHOLD ≤ score) ∧
    (stepFrame ⟨true, 0⟩ (mkRat 3 4)).2 = true ∧
    (stepFrame ⟨true, 0⟩ (mkRat 7499 10000)).2 = false ∧
    (∀ (c : Nat) (score : ℚ), REARM_THRESHOLD ≤ score →
      (stepFrame ⟨false, c⟩ score).1 = ⟨false, 0⟩) ∧
    (∀ (c : Nat) (score : ℚ), score < REARM_THRESHOLD →
      ((stepFrame ⟨false, c⟩ score).1).silence_frames = c + 1 ∧
      (((stepFrame ⟨false, c⟩ score).1).armed = true ↔
        REARM_SILENCE_FRAMES ≤ c + 1)) ∧
    (∀ trace : List ℚ, (runFrames ⟨false, 0⟩ trace).armed = true →
      HasLowWindow trace) := by
  refine ⟨fun c score => ?_, by decide, by decide, fun c score h => ?_,
    fun c score h => ?_, fun trace harmed => ?_⟩
  · by_cases h : TRIGGER_THRESHOLD ≤ score <;> simp [stepFrame, h]
  · rw [stepFrame_unarmed, if_neg (not_lt.mpr h)]
    simp [REARM_SILENCE_FRAMES]
  · rw [stepFrame_unarmed, if_pos h]
    exact ⟨rfl, by simp⟩
  · have hinv : ListenerInv [] ⟨false, 0⟩ := by
      unfold ListenerInv
      exact ⟨fun habs => Bool.noConfusion habs,
        fun _ => ⟨by simp, ⟨[], [], rfl, rfl, by simp⟩⟩⟩
    have h3 := runFrames_inv trace [] ⟨false, 0⟩ hinv
    rw [List.nil_append] at h3
    exact h3.1 harmed

/-- C5 witness: five consecutive zero-score frames re-arm the machine, hence
the trace contains a low window. -/
theorem wake_word_trigger_and_rearm_witness :
    HasLowWindow [mkRat 1 10, mkRat 1 10, mkRat 1 10, mkRat 1 10, mkRat 1 10] :=
  wake_word_trigger_and_rearm.2.2.2.2.2
    [mkRat 1 10, mkRat 1 10, mkRat 1 10, mkRat 1 10, mkRat 1 10] (by decide)

/-! ### Idempotence of `norm` (claim C6).

The image of `norm` is characterized: every character is in `[a-z0-9 ]`, no
two adjacent characters are whitespace, and neither end is whitespace.  Each
pass of `norm` fixes strings of that shape. -/

/-- A character of a run-substitution output is the inserted space or an
original character outside the class. -/
lemma mem_subRunsAux (p : Char → Bool) (c : Char) :
    ∀ (l : List Char) (b : Bool), c ∈ subRunsAux p b l →
      c = ' ' ∨ (c ∈ l ∧ p c = false) := by
  intro l
  induction l with
  | nil => intro b h; cases h
  | cons d ds ih =>
    intro b h
    by_cases hd : p d
    · cases b with
      | true =>
        rw [subRunsAux, if_pos hd, if_pos rfl] at h
        rcases ih true h with h1 | ⟨h1, h2⟩
        · exact Or.inl h1
        · exact Or.inr ⟨List.mem_cons_of_mem d h1, h2⟩
      | false =>
        rw [subRunsAux, if_pos hd, if_neg (by simp)] at h
        rcases List.mem_cons.mp h with h1 | h1
        · exact Or.inl h1
        · rcases ih true h1 with h2 | ⟨h2, h3⟩
          · exact Or.inl h2
          · exact Or.inr ⟨List.mem_cons_of_mem d h2, h3⟩
    · rw [subRunsAux, if_neg hd] at h
      rcases List.mem_cons.mp h with h1 | h1
      · exact Or.inr ⟨by rw [h1]; exact List.mem_cons_self d ds, by rw [h1]; simpa using hd⟩
      · rcases ih false h1 with h2 | ⟨h2, h3⟩
        · exact Or.inl h2
        · exact Or.inr ⟨List.mem_cons_of_mem d h2, h3⟩

/-- Run substitution is the identity on lists with no class member. -/
lemma subRunsAux_id (p : Char → Bool) :
    ∀ (l : List Char), (∀ c ∈ l, p c = false) → ∀ b, subRunsAux p b l = l := by
  intro l
  induction l with
  | nil => intro _ b; rfl
  | cons d ds ih =>
    intro hall b
    have hd : p d = false := hall d (List.mem_cons_self d ds)
    rw [subRunsAux, if_neg (by simp [hd])]
    rw [ih (fun c hc => hall c (List.mem_cons_of_mem d hc)) false]

/-- Run substitution is the identity on lists with no class member. -/
lemma subRuns_id (p : Char → Bool) (l : List Char)
    (hall : ∀ c ∈ l, p c = false) : subRuns p l = l :=
  subRunsAux_id p l hall false

/-- Dropping trailing whitespace only removes characters. -/
lemma mem_dropTrailWs (c : Char) :
    ∀ l : List Char, c ∈ dropTrailWs l → c ∈ l := by
  intro l
  induction l with
  | nil => intro h; cases h
  | cons d ds ih =>
    intro h
    rw [dropTrailWs] at h
    by_cases hc : (dropTrailWs ds).isEmpty && isWsChar d
    · rw [if_pos hc] at h; cases h
    · rw [if_neg hc] at h
      rcases List.mem_cons.mp h with h1 | h1
      · rw [h1]; exact List.mem_cons_self d ds
      · exact List.mem_cons_of_mem d (ih h1)

/-- Dropping leading class members only removes characters. -/
lemma mem_dropWhileList (p : Char → Bool) (c : Char) :
    ∀ l : List Char, c ∈ l.dropWhile p → c ∈ l := by
  intro l
  induction l with
  | nil => intro h; cases h
  | cons d ds ih =>
    intro h
    rw [List.dropWhile_cons] at h
    by_cases hd : p d = true
    · rw [if_pos hd] at h
      exact List.mem_cons_of_mem d (ih h)
    · rw [if_neg hd] at h
      exact h

/-- Stripping only removes characters. -/
lemma mem_stripList (c : Char) (l : List Char) (h : c ∈ stripList l) : c ∈ l :=
  mem_dropWhileList isWsChar c l (mem_dropTrailWs c (l.dropWhile isWsChar) h)

/-- The head surviving a `dropWhile` fails the predicate. -/
lemma head_dropWhile_not (p : Char → Bool) :
    ∀ (l : List Char) (c : Char), (l.dropWhile p).head? = some c → p c = false := by
  intro l
  induction l with
  | nil => intro c h; cases h
  | cons d ds ih =>
    intro c h
    rw [List.dropWhile_cons] at h
    by_cases hd : p d = true
    · rw [if_pos hd] at h
      exact ih c h
    · rw [if_neg hd] at h
      rw [List.head?_cons] at h
      rw [← Option.some.inj h]
      simpa using hd

/-- `dropTrailWs` returns the empty list or keeps the head. -/
lemma dropTrailWs_head (l : List Char) :
    dropTrailWs l = [] ∨ (dropTrailWs l).head? = l.head? := by
  cases l with
  | nil => exact Or.inl rfl
  | cons d ds =>
    rw [dropTrailWs]
    by_cases hc : (dropTrailWs ds).isEmpty && isWsChar d
    · rw [if_pos hc]; exact Or.inl rfl
    · rw [if_neg hc]; exact Or.inr rfl

/-- The last character surviving `dropTrailWs` is not whitespace. -/
lemma last_dropTrailWs :
    ∀ (l : List Char) (c : Char), (dropTrailWs l).getLast? = some c →
      isWsChar c = false := by
  intro l
  induction l with
  | nil => intro c h; cases h
  | cons d ds ih =>
    intro c h
    rw [dropTrailWs] at h
    by_cases hc : (dropTrailWs ds).isEmpty && isWsChar d
    · rw [if_pos hc] at h; cases h
    · rw [if_neg hc] at h
      cases hr : dropTrailWs ds with
      | nil =>
        rw [hr] at h hc
        simp only [List.isEmpty_nil, Bool.true_and] at hc
        rw [List.getLast?_singleton] at h
        rw [← Option.some.inj h]
        simpa using hc
      | cons x xs =>
        rw [hr] at h
        rw [List.getLast?_cons_cons] at h
        rw [← hr] at h
        exact ih c h

/-- `dropTrailWs` fixes a list whose last character is not whitespace. -/
lemma dropTrailWs_eq_self :
    ∀ l : List Char, (∀ c, l.getLast? = some c → isWsChar c = false) →
      dropTrailWs l = l := by
  intro l
  induction l with
  | nil => intro _; rfl
  | cons d ds ih =>
    intro h
    rw [dropTrailWs]
    cases ds with
    | nil =>
      have hd : isWsChar d = false := h d (by rw [List.getLast?_singleton])
      rw [if_neg (by simp [hd])]
      rfl
    | cons e es =>
      have hds : dropTrailWs (e :: es) = e :: es :=
        ih (fun c hc => h c (by rw [List.getLast?_cons_cons]; exact hc))
      rw [hds]
      rw [if_neg (by simp)]

/-- `dropWhile` fixes a list whose head fails the predicate. -/
lemma dropWhile_eq_self_of_head (p : Char → Bool) (l : List Char)
    (h : ∀ c, l.head? = some c → p c = false) : l.dropWhile p = l := by
  cases l with
  | nil => rfl
  | cons d ds =>
    rw [List.dropWhile_cons, if_neg (by simp [h d rfl])]

/-- No two adjacent characters are both whitespace. -/
def NoAdjWs : List Char → Prop
  | [] => True
  | [_] => True
  | a :: b :: r => (isWsChar a = true → isWsChar b = false) ∧ NoAdjWs (b :: r)

/-- Cons characterization of `NoAdjWs`. -/
lemma noAdjWs_cons_iff (x : Char) (l : List Char) :
    NoAdjWs (x :: l) ↔
      ((∀ y, l.head? = some y → isWsChar x = true → isWsChar y = false) ∧
        NoAdjWs l) := by
  cases l with
  | nil => simp [NoAdjWs]
  | cons y ys =>
    rw [NoAdjWs]
    constructor
    · rintro ⟨h1, h2⟩
      exact ⟨fun z hz => by rw [← Option.some.inj hz]; exact h1, h2⟩
    · rintro ⟨h1, h2⟩
      exact ⟨h1 y rfl, h2⟩

/-- `NoAdjWs` passes to the tail. -/
lemma noAdjWs_tail (x : Char) (l : List Char) (h : NoAdjWs (x :: l)) :
    NoAdjWs l :=
  ((noAdjWs_cons_iff x l).mp h).2

/-- `NoAdjWs` survives `dropWhile`. -/
lemma noAdjWs_dropWhile (p : Char → Bool) :
    ∀ l : List Char, NoAdjWs l → NoAdjWs (l.dropWhile p) := by
  intro l
  induction l with
  | nil => intro h; exact h
  | cons d ds ih =>
    intro h
    rw [List.dropWhile_cons]
    by_cases hd : p d = true
    · rw [if_pos hd]
      exact ih (noAdjWs_tail d ds h)
    · rw [if_neg hd]
      exact h

/-- `NoAdjWs` survives `dropTrailWs`. -/
lemma noAdjWs_dropTrailWs :
    ∀ l : List Char, NoAdjWs l → NoAdjWs (dropTrailWs l) := by
  intro l
  induction l with
  | nil => intro h; exact h
  | cons d ds ih =>
    intro h
    rw [dropTrailWs]
    by_cases hc : (dropTrailWs ds).isEmpty && isWsChar d
    · rw [if_pos hc]; trivial
    · rw [if_neg hc]
      rw [noAdjWs_cons_iff]
      refine ⟨?_, ih (noAdjWs_tail d ds h)⟩
      intro y hy hwd
      rcases dropTrailWs_head ds with he | he
      · rw [he] at hy; cases hy
      · rw [he] at hy
        exact ((noAdjWs_cons_iff d ds).mp h).1 y hy hwd

/-- The first character a `true`-state run substitution emits is outside the
class. -/
lemma head_subRunsAux_true (p : Char → Bool) :
    ∀ (l : List Char) (c : Char),
      (subRunsAux p true l).head? = some c → p c = false := by
  intro l
  induction l with
  | nil => intro c h; cases h
  | cons d ds ih =>
    intro c h
    by_cases hd : p d
    · rw [subRunsAux, if_pos hd, if_pos rfl] at h
      exact ih c h
    · rw [subRunsAux, if_neg hd, List.head?_cons] at h
      rw [← Option.some.inj h]
      simpa using hd

/-- The output of whitespace-run substitution has no two adjacent whitespace
characters. -/
lemma noAdjWs_subRunsAux :
    ∀ (l : List Char) (b : Bool), NoAdjWs (subRunsAux isWsChar b l) := by
  intro l
  induction l with
  | nil => intro b; trivial
  | cons d ds ih =>
    intro b
    by_cases hd : isWsChar d
    · cases b with
      | true =>
        rw [subRunsAux, if_pos hd, if_pos rfl]
        exact ih true
      | false =>
        rw [subRunsAux, if_pos hd, if_neg (by simp)]
        rw [noAdjWs_cons_iff]
        exact ⟨fun y hy _ => head_subRunsAux_true isWsChar ds y hy, ih true⟩
    · rw [subRunsAux, if_neg hd]
      rw [noAdjWs_cons_iff]
      exact ⟨fun y hy hwd => absurd hwd (by simpa using hd), ih false⟩

/-- Whitespace-run substitution fixes a list whose whitespace characters are
single spaces with no two adjacent (the `false` state unconditionally, the
`true` state when the head is not whitespace). -/
lemma subRunsAux_ws_id :
    ∀ l : List Char,
      (∀ c ∈ l, isWsChar c = true → c = ' ') → NoAdjWs l →
      (subRunsAux isWsChar false l = l ∧
        ((∀ c, l.head? = some c → isWsChar c = false) →
          subRunsAux isWsChar true l = l)) := by
  intro l
  induction l with
  | nil => intro _ _; exact ⟨rfl, fun _ => rfl⟩
  | cons d ds ih =>
    intro hsp hadj
    have hsp2 : ∀ c ∈ ds, isWsChar c = true → c = ' ' :=
      fun c hc => hsp c (List.mem_cons_of_mem d hc)
    have hadj2 : NoAdjWs ds := noAdjWs_tail d ds hadj
    by_cases hd : isWsChar d
    · have hds : d = ' ' := hsp d (List.mem_cons_self d ds) hd
      constructor
      · rw [subRunsAux, if_pos hd, if_neg (by simp)]
        have hhead : ∀ c, ds.head? = some c → isWsChar c = false :=
          fun c hc => ((noAdjWs_cons_iff d ds).mp hadj).1 c hc hd
        rw [(ih hsp2 hadj2).2 hhead, hds]
      · intro hh
        exact absurd (hh d rfl) (by simp [hd])
    · have hstep : ∀ b : Bool, subRunsAux isWsChar b (d :: ds) =
          d :: subRunsAux isWsChar false ds := by
        intro b
        rw [subRunsAux, if_neg hd]
      constructor
      · rw [hstep false, (ih hsp2 hadj2).1]
      · intro _
        rw [hstep true, (ih hsp2 hadj2).1]

/-- `Char.toLower` fixes the characters of the class `[a-z0-9 ]`. -/
lemma toLower_eq_self_of_keep (c : Char) (h : isKeepChar c = true) :
    c.toLower = c := by
  unfold isKeepChar at h
  simp only [Bool.or_eq_true, Bool.and_eq_true, decide_eq_true_eq] at h
  rcases h with (⟨h1, h2⟩ | ⟨h1, h2⟩) | h1
  · simp [Char.le_def, UInt32.le_def, BitVec.le_def] at h1 h2
    unfold Char.toLower Char.toNat UInt32.toNat
    rw [if_neg (by omega)]
  · simp [Char.le_def, UInt32.le_def, BitVec.le_def] at h1 h2
    unfold Char.toLower Char.toNat UInt32.toNat
    rw [if_neg (by omega)]
  · rw [h1]
    rfl

/-- Mapping `toLower` fixes a list of class characters. -/
lemma map_toLower_id :
    ∀ l : List Char, (∀ c ∈ l, isKeepChar c = true) →
      l.map Char.toLower = l := by
  intro l
  induction l with
  | nil => intro _; rfl
  | cons d ds ih =>
    intro h
    rw [List.map_cons, toLower_eq_self_of_keep d (h d (List.mem_cons_self d ds)),
      ih (fun c hc => h c (List.mem_cons_of_mem d hc))]

/-- A whitespace character of the class `[a-z0-9 ]` is the space. -/
lemma keep_ws_space (c : Char) (hk : isKeepChar c = true)
    (hw : isWsChar c = true) : c = ' ' := by
  unfold isWsChar at hw
  simp only [Bool.or_eq_true, decide_eq_true_eq] at hw
  rcases hw with ((((h | h) | h) | h) | h) | h
  · exact h
  · rw [h] at hk; exact absurd hk (by decide)
  · rw [h] at hk; exact absurd hk (by decide)
  · rw [h] at hk; exact absurd hk (by decide)
  · rw [h] at hk; exact absurd hk (by decide)
  · rw [h] at hk; exact absurd hk (by decide)

/-- No character of the class `[a-z0-9 ]` is an underscore or dash. -/
lemma keep_not_ud (c : Char) (hk : isKeepChar c = true) :
    isUnderscoreDash c = false := by
  cases hud : isUnderscoreDash c
  · rfl
  · unfold isUnderscoreDash at hud
    simp only [Bool.or_eq_true, decide_eq_true_eq] at hud
    rcases hud with h | h
    · rw [h] at hk; exact absurd hk (by decide)
    · rw [h] at hk; exact absurd hk (by decide)

/-- Every character of a normalized string is in the class `[a-z0-9 ]`. -/
lemma keep_of_mem_normList (l : List Char) :
    ∀ c ∈ normList l, isKeepChar c = true := by
  intro c hc
  unfold normList at hc
  have hc2 := mem_stripList c _ hc
  rcases mem_subRunsAux isWsChar c _ false hc2 with h1 | ⟨h1, _⟩
  · rw [h1]; decide
  · rcases mem_subRunsAux _ c _ false h1 with h2 | ⟨_, h3⟩
    · rw [h2]; decide
    · simpa using h3

/-- A normalized string has no two adjacent whitespace characters. -/
lemma noAdjWs_normList (l : List Char) : NoAdjWs (normList l) := by
  unfold normList stripList
  exact noAdjWs_dropTrailWs _
    (noAdjWs_dropWhile isWsChar _ (noAdjWs_subRunsAux _ false))

/-- A stripped string does not start with whitespace. -/
lemma head_stripList (m : List Char) :
    ∀ c, (stripList m).head? = some c → isWsChar c = false := by
  intro c hc
  unfold stripList at hc
  rcases dropTrailWs_head (m.dropWhile isWsChar) with he | he
  · rw [he] at hc; cases hc
  · rw [he] at hc
    exact head_dropWhile_not isWsChar m c hc

/-- A stripped string does not end with whitespace. -/
lemma last_stripList (m : List Char) :
    ∀ c, (stripList m).getLast? = some c → isWsChar c = false := by
  intro c hc
  unfold stripList at hc
  exact last_dropTrailWs _ c hc

/-- A normalized string does not start with whitespace. -/
lemma head_normList (l : List Char) :
    ∀ c, (normList l).head? = some c → isWsChar c = false := by
  intro c hc
  unfold normList at hc
  exact head_stripList _ c hc

/-- A normalized string does not end with whitespace. -/
lemma last_normList (l : List Char) :
    ∀ c, (normList l).getLast? = some c → isWsChar c = false := by
  intro c hc
  unfold normList at hc
  exact last_stripList _ c hc

/-- `strip` fixes a string with no whitespace at either end. -/
lemma stripList_eq_self (l : List Char)
    (hh : ∀ c, l.head? = some c → isWsChar c = false)
    (hl : ∀ c, l.getLast? = some c → isWsChar c = false) :
    stripList l = l := by
  unfold stripList
  rw [dropWhile_eq_self_of_head isWsChar l hh, dropTrailWs_eq_self l hl]

/-- `normList` is idempotent: a second normalization pass fixes the output of
the first. -/
lemma normList_idem (l : List Char) : normList (normList l) = normList l := by
  have hkeep := keep_of_mem_normList l
  have hh := head_normList l
  have hl := last_normList l
  have hadj := noAdjWs_normList l
  have hsp : ∀ c ∈ normList l, isWsChar c = true → c = ' ' :=
    fun c hc hw => keep_ws_space c (hkeep c hc) hw
  show stripList
      (subRuns isWsChar
        (subRuns (fun c => !(isKeepChar c))
          (subRuns isUnderscoreDash
            (stripList ((normList l).map Char.toLower))))) = normList l
  rw [map_toLower_id _ hkeep]
  rw [stripList_eq_self _ hh hl]
  rw [subRuns_id isUnderscoreDash _ (fun c hc => keep_not_ud c (hkeep c hc))]
  rw [subRuns_id (fun c => !(isKeepChar c)) _ (fun c hc => by simp [hkeep c hc])]
  rw [show subRuns isWsChar (normList l) = normList l from
    (subRunsAux_ws_id (normList l) hsp hadj).1]
  exact stripList_eq_self _ hh hl

/-- C6: `norm` is idempotent on every string; it collapses both
`"Living-Room_Lamp!!"` and `"living room lamp"` to the same key
`"living room lamp"`; and the copy of `norm` in the registry refresh job
computes the same function, so normalized forms agree across registry
refreshes. -/
theorem norm_idempotent_and_stable :
    (∀ s : String, norm (norm s) = norm s) ∧
    norm "Living-Room_Lamp!!" = norm "living room lamp" ∧
    norm "Living-Room_Lamp!!" = "living room lamp" ∧
    (∀ s : String, norm s = normRegistryUpdate s) := by
  refine ⟨fun s => ?_, by decide, by decide, fun s => rfl⟩
  exact congrArg String.mk (normList_idem s.data)

end VoiceAssistant
